import Mathlib

/-!
Verification development for the `calendar-tool` repository
(`src/src/app/page.tsx` and the API route handlers).

The program's strings are modelled as `List Char`.  JavaScript regular
expression searches are modelled by explicit left-to-right scans over the
character list; the host environment's `Date` valuation and
`toLocaleString` formatting are passed as explicit parameters where the
code calls them.
-/

namespace CalendarTool

/-- Characters that the JavaScript regex metacharacter `.` does NOT match
(the ECMAScript line terminators: LF, CR, LINE SEPARATOR, PARAGRAPH
SEPARATOR).  A `(.*)` capture extends over exactly the characters for
which this is `true`. -/
def notLineTerm (c : Char) : Bool :=
  !(c == '\n' || c == '\r' || c == '\u2028' || c == '\u2029')

/-- JavaScript `String.prototype.slice(a, b)` for `0 ≤ a ≤ b`: the
characters at indices `[a, b)`, clamped to the string length. -/
def jsSlice (a b : Nat) (s : List Char) : List Char :=
  (s.drop a).take (b - a)

/-- Index of the first occurrence of `p` as a contiguous substring of `s`
(the JavaScript regex leftmost-match position for a literal pattern). -/
def findSub (p : List Char) : List Char → Option Nat
  | [] => if p.isEmpty then some 0 else none
  | c :: rest =>
    if p.isPrefixOf (c :: rest) then some 0
    else (findSub p rest).map (fun n => n + 1)

/-- Whether `p` occurs as a contiguous substring of `s`. -/
def occursIn (p : List Char) : List Char → Bool
  | [] => p.isEmpty
  | c :: rest => p.isPrefixOf (c :: rest) || occursIn p rest

/-- The opening marker of the block regex `/BEGIN:VEVENT([\s\S]*?)END:VEVENT/g`. -/
def beginMark : List Char := ("BEGIN:VEVENT").toList

/-- The closing marker of the block regex. -/
def endMark : List Char := ("END:VEVENT").toList

/-- All capture groups of the blocks matched by
`content.matchAll(/BEGIN:VEVENT([\s\S]*?)END:VEVENT/g)` in `parseICS`:
repeatedly take the leftmost `BEGIN:VEVENT`, then the non-greedy
`[\s\S]*?` stops at the next `END:VEVENT`; scanning resumes after the
consumed end marker. -/
def vEventBlocks (s : List Char) : List (List Char) :=
  match hb : findSub beginMark s with
  | none => []
  | some i =>
    match findSub endMark (s.drop (i + beginMark.length)) with
    | none => []
    | some j =>
      (s.drop (i + beginMark.length)).take j ::
        vEventBlocks ((s.drop (i + beginMark.length)).drop (j + endMark.length))
termination_by s.length
decreasing_by
  cases s with
  | nil => simp [findSub, beginMark] at hb
  | cons c cs =>
    have hbl : beginMark.length = 12 := rfl
    have hel : endMark.length = 10 := rfl
    simp only [List.length_drop, List.length_cons, hbl, hel]
    omega

/-- At-position matcher for a field regex given as a list of literal
alternatives `ps` (tried in order): if some alternative is a prefix of
`s`, the `(.*)` capture is the run of non-line-terminator characters that
follows it. -/
def capAt : List (List Char) → List Char → Option (List Char)
  | [], _ => none
  | p :: ps, s =>
    if p.isPrefixOf s then some ((s.drop p.length).takeWhile notLineTerm)
    else capAt ps s

/-- Leftmost-match scan of a field regex over `s`
(JavaScript `String.prototype.match` without the `g` flag). -/
def scanCap (ps : List (List Char)) : List Char → Option (List Char)
  | [] => none
  | c :: rest => (capAt ps (c :: rest)).orElse (fun _ => scanCap ps rest)

/-- Literal alternatives of `/SUMMARY:(.*)/`. -/
def sumPats : List (List Char) := [("SUMMARY:").toList]

/-- Literal alternatives of `/DTSTART(?:;VALUE=DATE)?:(.*)/`: the greedy
optional group is tried first, so the parameterised form comes first. -/
def dtstartPats : List (List Char) :=
  [("DTSTART;VALUE=DATE:").toList, ("DTSTART:").toList]

/-- Literal alternatives of `/DTEND(?:;VALUE=DATE)?:(.*)/`. -/
def dtendPats : List (List Char) :=
  [("DTEND;VALUE=DATE:").toList, ("DTEND:").toList]

/-- Literal alternatives of `/DESCRIPTION:(.*)/`. -/
def descPats : List (List Char) := [("DESCRIPTION:").toList]

/-- Literal alternatives of `/LOCATION:(.*)/`. -/
def locPats : List (List Char) := [("LOCATION:").toList]

/-- The `Event` interface of `page.tsx`: `summary`, `start`, `end` are
strings (defaulting to `""`), `description` and `location` are optional. -/
structure Event where
  summary : List Char
  start : List Char
  «end» : List Char
  description : Option (List Char)
  location : Option (List Char)
deriving Repr, DecidableEq

/-- Date-token normalisation inlined in `parseICS` for both `DTSTART` and
`DTEND`: an 8-character token becomes `YYYY-MM-DD` from slices
`(0,4)/(4,6)/(6,8)`; any other length becomes `YYYY-MM-DD HH:MM` with the
hour and minute read from slices `(9,11)` and `(11,13)`. -/
def normalizeDate (d : List Char) : List Char :=
  if d.length = 8 then
    jsSlice 0 4 d ++ '-' :: jsSlice 4 6 d ++ '-' :: jsSlice 6 8 d
  else
    jsSlice 0 4 d ++ '-' :: jsSlice 4 6 d ++ '-' :: jsSlice 6 8 d ++
      ' ' :: jsSlice 9 11 d ++ ':' :: jsSlice 11 13 d

/-- The per-block body of `parseICS`: each field is searched independently
in the block's capture; a missing match leaves the field at its default. -/
def parseEventBlock (b : List Char) : Event :=
  { summary := (scanCap sumPats b).getD []
  , start :=
      match scanCap dtstartPats b with
      | some d => normalizeDate d
      | none => []
  , «end» :=
      match scanCap dtendPats b with
      | some d => normalizeDate d
      | none => []
  , description := scanCap descPats b
  , location := scanCap locPats b }

/-- `parseICS` from `page.tsx`: one `Event` per matched `VEVENT` block,
in match order. -/
def parseICS (content : List Char) : List Event :=
  (vEventBlocks content).map parseEventBlock

/-! ### Month navigation (page.tsx lines 547-612) -/

/-- The `onClick` of the `Next Month` button:
`setCurrentMonthIndex(prev => Math.min(sortedMonths.length - 1, prev + 1))`. -/
def jsNext (len idx : Int) : Int := min (len - 1) (idx + 1)

/-- The `onClick` of the `Previous Month` button:
`setCurrentMonthIndex(prev => Math.max(0, prev - 1))`. -/
def jsPrev (idx : Int) : Int := max 0 (idx - 1)

/-- The month key the render body actually displays (lines 547-559): a
local `const currentMonthIndex = sortedMonths.findIndex(m => m ===
currentMonthKey)` shadows the `currentMonthIndex` React state, and
`monthKey = sortedMonths[currentMonthIndex >= 0 ? currentMonthIndex : 0]`
reads the shadowed local.  The `stateIdx` parameter is the React state the
paging buttons update; as in the source, it is never consulted. -/
def renderedMonthKey (sortedMonths : List (List Char)) (todayKey : List Char)
    (stateIdx : Int) : Option (List Char) :=
  match sortedMonths.findIdx? (fun k => k == todayKey) with
  | some i => sortedMonths[i]?
  | none => sortedMonths[0]?

/-! ### Total hours (page.tsx lines 568-575)

`new Date(s).getTime()` is a host-environment valuation of the event's
date string; it is passed in as the explicit parameter `dateVal`
(rationals stand in for the finite JavaScript numbers involved). -/

/-- `monthEvents.reduce((acc, event) => acc + (end.getTime() -
start.getTime()) / (1000 * 60 * 60), 0)`. -/
def totalHours (dateVal : List Char → ℚ) (evts : List Event) : ℚ :=
  evts.foldl (fun acc e => acc + (dateVal e.«end» - dateVal e.start) / (1000 * 60 * 60)) 0

/-! ### CSV export (page.tsx lines 463-514) -/

/-- `field.replace(/"/g, '""')`: every double-quote character is doubled. -/
def escQuotes : List Char → List Char
  | [] => []
  | c :: r => if c = '"' then '"' :: '"' :: escQuotes r else c :: escQuotes r

/-- The per-field serialisation `` `"${field.replace(/"/g, '""')}"` ``. -/
def csvQuote (f : List Char) : List Char := '"' :: (escQuotes f ++ ['"'])

/-- The `headers` array of the export handler. -/
def csvHeaders : List (List Char) :=
  [("Summary").toList, ("Start Date").toList, ("End Date").toList,
   ("Location").toList, ("Description").toList]

/-- The data row built for one exported event: `[summary, start, end,
location || "", description || ""].map(quote)`, where `fmt` is the host's
`new Date(·).toLocaleString()` rendering of the two date fields. -/
def csvRowOf (fmt : List Char → List Char) (e : Event) : List (List Char) :=
  [e.summary, fmt e.start, fmt e.«end», e.location.getD [], e.description.getD []].map csvQuote

/-- JavaScript `dateA >= dateB` on `Date` values whose `valueOf` is given
by the two options; any `NaN` (invalid date, `none`) compares `false`. -/
def jsGeVal : Option Int → Option Int → Bool
  | some a, some b => decide (b ≤ a)
  | _, _ => false

/-- JavaScript `dateA <= dateB` on `Date` values; `NaN` compares `false`. -/
def jsLeVal : Option Int → Option Int → Bool
  | some a, some b => decide (a ≤ b)
  | _, _ => false

/-- The export handler's filter: `events.filter(e => eventDate >=
startDate && eventDate <= endDate)` with `eventDate = new Date(e.start)`;
`dv` is the host's `Date` valuation (`none` = Invalid Date). -/
def exportFilter (dv : List Char → Option Int) (sd ed : List Char)
    (evts : List Event) : List Event :=
  evts.filter (fun e => jsGeVal (dv e.start) (dv sd) && jsLeVal (dv e.start) (dv ed))

/-- The CSV text assembled by the export handler:
`[headers, ...rows].map(row => row.join(",")).join("\n")`. -/
def exportCSV (dv : List Char → Option Int) (fmt : List Char → List Char)
    (evts : List Event) (sd ed : List Char) : List Char :=
  let rows := csvHeaders :: (exportFilter dv sd ed evts).map (csvRowOf fmt)
  List.intercalate (['\n']) (rows.map (fun r => List.intercalate ([',']) r))

/-- The serialised header row (`headers.join(",")`). -/
def csvHeaderLine : List Char := List.intercalate ([',']) csvHeaders

/-- One serialised data row (`row.join(",")`). -/
def csvDataRow (fmt : List Char → List Char) (e : Event) : List Char :=
  List.intercalate ([',']) (csvRowOf fmt e)

/-! ### Host `Date` valuation for ISO date-only strings

Modelled host-platform behaviour (not repository code): ECMAScript parses
a well-formed `YYYY-MM-DD` string as midnight UTC, i.e. a time value of
`86400000` milliseconds per day since 1970-01-01.  This valuation is used
only to instantiate the abstract `dv` parameter on concrete inputs. -/

/-- Numeric value of a decimal digit character. -/
def digitVal (c : Char) : Option Nat :=
  if c.isDigit then some (c.toNat - 48) else none

/-- Two-digit decimal reading. -/
def digits2 (a b : Char) : Option Nat :=
  match digitVal a, digitVal b with
  | some x, some y => some (10 * x + y)
  | _, _ => none

/-- Four-digit decimal reading. -/
def digits4 (a b c d : Char) : Option Nat :=
  match digits2 a b, digits2 c d with
  | some x, some y => some (100 * x + y)
  | _, _ => none

/-- Days from 1970-01-01 of the civil date `y-m-d` (proleptic Gregorian,
`y ≥ 1`, the standard days-from-civil computation). -/
def daysFromCivil (y m d : Nat) : Int :=
  let y' := if m ≤ 2 then y - 1 else y
  let era := y' / 400
  let yoe := y' % 400
  let mp := (m + 9) % 12
  let doy := (153 * mp + 2) / 5 + d - 1
  let doe := yoe * 365 + yoe / 4 - yoe / 100 + doy
  (((era * 146097 + doe : Nat)) : Int) - 719468

/-- Host `new Date(s).getTime()` for ISO `YYYY-MM-DD` strings (UTC
midnight); anything else is left unvalued here. -/
def jsDateVal (s : List Char) : Option Int :=
  match s with
  | [a, b, c, d, h1, e, f, h2, g, h] =>
    if h1 == '-' && h2 == '-' then
      match digits4 a b c d, digits2 e f, digits2 g h with
      | some y, some mo, some da =>
        if 1 ≤ mo && mo ≤ 12 && 1 ≤ da && da ≤ 31 then
          some (86400000 * daysFromCivil y mo da)
        else none
      | _, _, _ => none
    else none
  | _ => none

/-! ### Import handlers (page.tsx lines 24-62 and 197-214) -/

/-- The UI state touched by an import attempt. -/
structure UIState where
  events : List Event
  error : List Char
deriving Repr, DecidableEq

/-- `handleUrlImport`: a successful fetch parses the response text and
replaces the event list wholesale (`setEvents(parseICS(content))`); a
failed fetch or thrown error only records a message (`setError`), leaving
`events` untouched.  `response` is the outcome of the awaited fetch
pipeline. -/
def handleUrlImport (st : UIState) (response : Except (List Char) (List Char)) : UIState :=
  match response with
  | Except.ok content => { st with events := parseICS content, error := [] }
  | Except.error msg => { st with error := msg }

/-- `handleFileUpload` (and the identical `handleDrop`): parses the
selected file's text on success, records only an error message on
failure. -/
def handleFileUpload (st : UIState) (fileText : Except (List Char) (List Char)) : UIState :=
  match fileText with
  | Except.ok content => { st with events := parseICS content, error := [] }
  | Except.error msg => { st with error := msg }

/-! ### Well-formed document assembly (for the block-count claim) -/

/-- An ICS document assembled from a leading segment and a list of
`(blockBody, trailingSegment)` pairs, each body wrapped in
`BEGIN:VEVENT … END:VEVENT`. -/
def assembleICS : List Char → List (List Char × List Char) → List Char
  | pre, [] => pre
  | pre, (body, sep) :: bs => pre ++ beginMark ++ body ++ endMark ++ assembleICS sep bs

/-- Well-formedness of an assembled document: each wrapped block is found
exactly where it was assembled (the leftmost `BEGIN:VEVENT` of the
remaining text is the assembled one, the next `END:VEVENT` is the
assembled one), and the trailing segment holds no further begin marker. -/
def wfAssemble : List Char → List (List Char × List Char) → Bool
  | pre, [] => (findSub beginMark pre).isNone
  | pre, (body, sep) :: bs =>
    (findSub beginMark (assembleICS pre ((body, sep) :: bs)) == some pre.length) &&
    (findSub endMark (body ++ endMark ++ assembleICS sep bs) == some body.length) &&
    wfAssemble sep bs

/-- Physical lines joined by `\n` into one document. -/
def joinLines : List (List Char) → List Char
  | [] => []
  | [l] => l
  | l :: ls => l ++ '\n' :: joinLines ls

/-! ### Helper lemmas: substring search and line structure -/

theorem isPrefixOf_le_length {p s : List Char} (h : p.isPrefixOf s = true) :
    p.length ≤ s.length := by
  induction p generalizing s with
  | nil => simp
  | cons a as ih =>
    cases s with
    | nil => simp [List.isPrefixOf] at h
    | cons b bs =>
      simp only [List.isPrefixOf, Bool.and_eq_true] at h
      simpa using ih h.2

theorem isPrefixOf_append_left {p s : List Char} (t : List Char)
    (h : p.isPrefixOf s = true) : p.isPrefixOf (s ++ t) = true := by
  induction p generalizing s with
  | nil => simp [List.isPrefixOf]
  | cons a as ih =>
    cases s with
    | nil => simp [List.isPrefixOf] at h
    | cons b bs =>
      simp only [List.cons_append, List.isPrefixOf, Bool.and_eq_true] at h ⊢
      exact ⟨h.1, ih h.2⟩

theorem isPrefixOf_append_term {p : List Char} {c : Char} (l r : List Char)
    (hp : p.all notLineTerm = true) (hc : notLineTerm c = false) :
    p.isPrefixOf (l ++ c :: r) = p.isPrefixOf l := by
  induction l generalizing p with
  | nil =>
    cases p with
    | nil => rfl
    | cons a as =>
      have ha : notLineTerm a = true := by
        simp only [List.all_cons, Bool.and_eq_true] at hp; exact hp.1
      have hac : (a == c) = false := by
        cases hx : a == c with
        | false => rfl
        | true => rw [eq_of_beq hx, hc] at ha; cases ha
      simp [List.isPrefixOf, hac]
  | cons x l' ih =>
    cases p with
    | nil => rfl
    | cons a as =>
      have has : as.all notLineTerm = true := by
        simp only [List.all_cons, Bool.and_eq_true] at hp; exact hp.2
      simp only [List.cons_append, List.isPrefixOf, List.append_eq]
      rw [ih has]

theorem takeWhile_all_eq {l : List Char} (h : l.all notLineTerm = true) :
    l.takeWhile notLineTerm = l := by
  induction l with
  | nil => rfl
  | cons c cs ih =>
    simp only [List.all_cons, Bool.and_eq_true] at h
    simp [List.takeWhile_cons, h.1, ih h.2]

theorem takeWhile_append_stop {a : List Char} {c : Char} (r : List Char)
    (ha : a.all notLineTerm = true) (hc : notLineTerm c = false) :
    (a ++ c :: r).takeWhile notLineTerm = a := by
  induction a with
  | nil => simp [List.takeWhile_cons, hc]
  | cons x xs ih =>
    simp only [List.all_cons, Bool.and_eq_true] at ha
    simp [List.takeWhile_cons, ha.1, ih ha.2]

theorem all_notLineTerm_drop {l : List Char} (n : Nat) (h : l.all notLineTerm = true) :
    (l.drop n).all notLineTerm = true := by
  rw [List.all_eq_true] at h ⊢
  exact fun x hx => h x (List.drop_subset n l hx)

theorem capAt_nil_eq_none {ps : List (List Char)} (hne : ∀ p ∈ ps, p ≠ []) :
    capAt ps [] = none := by
  induction ps with
  | nil => rfl
  | cons p ps ih =>
    have hp : p.isPrefixOf ([] : List Char) = false := by
      cases p with
      | nil => exact absurd rfl (hne [] (by simp))
      | cons a as => rfl
    simp only [capAt, hp]
    exact ih (fun q hq => hne q (by simp [hq]))

theorem capAt_append_term {ps : List (List Char)} {c : Char} (l r : List Char)
    (hcl : ∀ p ∈ ps, p.all notLineTerm = true)
    (hl : l.all notLineTerm = true) (hc : notLineTerm c = false) :
    capAt ps (l ++ c :: r) = capAt ps l := by
  induction ps with
  | nil => rfl
  | cons p ps ih =>
    have hp : p.all notLineTerm = true := hcl p (by simp)
    simp only [capAt, isPrefixOf_append_term l r hp hc]
    cases hmatch : p.isPrefixOf l with
    | false =>
      simp only [Bool.false_eq_true, if_false]
      exact ih (fun q hq => hcl q (by simp [hq]))
    | true =>
      simp only [if_true]
      have hlen : p.length ≤ l.length := isPrefixOf_le_length hmatch
      have hdrop : (l ++ c :: r).drop p.length = l.drop p.length ++ c :: r := by
        rw [List.drop_append_eq_append_drop]
        have hz : p.length - l.length = 0 := by omega
        simp [hz]
      rw [hdrop, takeWhile_append_stop r (all_notLineTerm_drop p.length hl) hc,
        takeWhile_all_eq (all_notLineTerm_drop p.length hl)]

theorem scanCap_append_term {ps : List (List Char)} {c : Char} (l r : List Char)
    (hne : ∀ p ∈ ps, p ≠ []) (hcl : ∀ p ∈ ps, p.all notLineTerm = true)
    (hl : l.all notLineTerm = true) (hc : notLineTerm c = false) :
    scanCap ps (l ++ c :: r) = (scanCap ps l).orElse (fun _ => scanCap ps r) := by
  induction l with
  | nil =>
    have h0 : capAt ps (c :: r) = capAt ps [] := by
      have := capAt_append_term ([] : List Char) r hcl (by simp) hc
      simpa using this
    show (capAt ps (c :: r)).orElse (fun _ => scanCap ps r) = _
    rw [h0, capAt_nil_eq_none hne]
    rfl
  | cons x xs ih =>
    have hx : notLineTerm x = true := by
      simp only [List.all_cons, Bool.and_eq_true] at hl; exact hl.1
    have hxs : xs.all notLineTerm = true := by
      simp only [List.all_cons, Bool.and_eq_true] at hl; exact hl.2
    have hcap : capAt ps (x :: (xs ++ c :: r)) = capAt ps (x :: xs) :=
      capAt_append_term (x :: xs) r hcl hl hc
    have hsc : scanCap ps (x :: xs) = (capAt ps (x :: xs)).orElse (fun _ => scanCap ps xs) := rfl
    show (capAt ps (x :: (xs ++ c :: r))).orElse (fun _ => scanCap ps (xs ++ c :: r)) = _
    rw [hcap, ih hxs, hsc]
    cases capAt ps (x :: xs) <;> rfl

theorem scanCap_joinLines {ps : List (List Char)} {ls : List (List Char)}
    (hne : ∀ p ∈ ps, p ≠ []) (hcl : ∀ p ∈ ps, p.all notLineTerm = true)
    (hls : ∀ l ∈ ls, l.all notLineTerm = true) :
    scanCap ps (joinLines ls) = ls.findSome? (fun l => scanCap ps l) := by
  induction ls with
  | nil => rfl
  | cons l ls ih =>
    cases ls with
    | nil =>
      show scanCap ps l = _
      cases h : scanCap ps l <;> simp [List.findSome?, h]
    | cons l₂ ls₂ =>
      have hjoin : joinLines (l :: l₂ :: ls₂) = l ++ '\n' :: joinLines (l₂ :: ls₂) := rfl
      rw [hjoin, scanCap_append_term l (joinLines (l₂ :: ls₂)) hne hcl
        (hls l (by simp)) (by rfl)]
      rw [ih (fun x hx => hls x (by simp at hx ⊢; exact Or.inr hx))]
      cases h : scanCap ps l <;> simp [List.findSome?, h, Option.orElse]

theorem scanCap_clean_eq_findSub {p s : List Char} (hp : p ≠ [])
    (hs : s.all notLineTerm = true) :
    scanCap [p] s = (findSub p s).map (fun i => s.drop (i + p.length)) := by
  induction s with
  | nil =>
    have hpe : p.isEmpty = false := by
      cases p with
      | nil => exact absurd rfl hp
      | cons a as => rfl
    simp [scanCap, findSub, hpe]
  | cons c cs ih =>
    have hcs : cs.all notLineTerm = true := by
      simp only [List.all_cons, Bool.and_eq_true] at hs; exact hs.2
    cases hmatch : p.isPrefixOf (c :: cs) with
    | true =>
      show (capAt [p] (c :: cs)).orElse _ = _
      simp only [capAt, hmatch, if_true, findSub, Option.orElse]
      have hlen : p.length ≤ (c :: cs).length := isPrefixOf_le_length hmatch
      rw [takeWhile_all_eq (all_notLineTerm_drop p.length hs)]
      simp
    | false =>
      show (capAt [p] (c :: cs)).orElse _ = _
      simp only [capAt, hmatch, Bool.false_eq_true, if_false, findSub, Option.orElse]
      rw [ih hcs]
      cases findSub p cs <;> simp [Nat.add_right_comm]

theorem findSub_eq_none_of_not_occursIn {p s : List Char} (h : occursIn p s = false) :
    findSub p s = none := by
  induction s with
  | nil =>
    simp only [occursIn] at h
    simp [findSub, h]
  | cons c cs ih =>
    simp only [occursIn, Bool.or_eq_false_iff] at h
    simp [findSub, h.1, ih h.2]

theorem capAt_eq_none_of_not_isPrefixOf {ps : List (List Char)} {s : List Char}
    (h : ∀ p ∈ ps, p.isPrefixOf s = false) : capAt ps s = none := by
  induction ps with
  | nil => rfl
  | cons p ps ih =>
    simp only [capAt, h p (by simp), Bool.false_eq_true, if_false]
    exact ih (fun q hq => h q (by simp [hq]))

theorem scanCap_eq_none_of_not_occursIn {ps : List (List Char)} {s : List Char}
    (h : ∀ p ∈ ps, occursIn p s = false) : scanCap ps s = none := by
  induction s with
  | nil => rfl
  | cons c cs ih =>
    have hcap : capAt ps (c :: cs) = none := by
      apply capAt_eq_none_of_not_isPrefixOf
      intro p hp
      have := h p hp
      simp only [occursIn, Bool.or_eq_false_iff] at this
      exact this.1
    have hrest : scanCap ps cs = none := by
      apply ih
      intro p hp
      have := h p hp
      simp only [occursIn, Bool.or_eq_false_iff] at this
      exact this.2
    show (capAt ps (c :: cs)).orElse (fun _ => scanCap ps cs) = none
    rw [hcap, hrest]
    rfl

theorem occursIn_of_append_isPrefixOf {a q t : List Char}
    (h : (a ++ q).isPrefixOf t = true) : occursIn q t = true := by
  induction a generalizing t with
  | nil =>
    simp only [List.nil_append] at h
    cases t with
    | nil =>
      have hq : q = [] := by
        cases q with
        | nil => rfl
        | cons a as => simp [List.isPrefixOf] at h
      simp [occursIn, hq]
    | cons c cs => simp [occursIn, h]
  | cons x a' ih =>
    cases t with
    | nil => simp [List.isPrefixOf] at h
    | cons y t' =>
      simp only [List.cons_append, List.isPrefixOf, Bool.and_eq_true] at h
      have := ih h.2
      simp [occursIn, this]

theorem occursIn_append_dropPattern {a q s : List Char}
    (h : occursIn (a ++ q) s = true) : occursIn q s = true := by
  induction s with
  | nil =>
    simp only [occursIn, List.isEmpty_iff, List.append_eq_nil] at h
    simp [occursIn, h.2]
  | cons c cs ih =>
    simp only [occursIn, Bool.or_eq_true] at h
    cases h with
    | inl h => exact occursIn_of_append_isPrefixOf h
    | inr h =>
      have := ih h
      simp [occursIn, this]

/-! ### Helper lemmas: block matching -/

theorem vEventBlocks_eq_nil_of_no_begin {s : List Char}
    (hb : findSub beginMark s = none) : vEventBlocks s = [] := by
  unfold vEventBlocks
  split
  · rfl
  · rename_i i hsome
    rw [hb] at hsome
    cases hsome

theorem vEventBlocks_eq_nil_of_no_end {s : List Char} {i : Nat}
    (hb : findSub beginMark s = some i)
    (he : findSub endMark (s.drop (i + beginMark.length)) = none) :
    vEventBlocks s = [] := by
  unfold vEventBlocks
  split
  · rfl
  · rename_i i' hb'
    rw [hb] at hb'
    injection hb' with hi
    subst hi
    split
    · rfl
    · rename_i j he'
      rw [he] at he'
      cases he'

theorem vEventBlocks_step {s : List Char} {i j : Nat}
    (hb : findSub beginMark s = some i)
    (he : findSub endMark (s.drop (i + beginMark.length)) = some j) :
    vEventBlocks s =
      (s.drop (i + beginMark.length)).take j ::
        vEventBlocks ((s.drop (i + beginMark.length)).drop (j + endMark.length)) := by
  conv_lhs => unfold vEventBlocks
  split
  · rename_i hnone
    rw [hb] at hnone
    cases hnone
  · rename_i i' hb'
    rw [hb] at hb'
    injection hb' with hi
    subst hi
    split
    · rename_i hnone
      rw [he] at hnone
      cases hnone
    · rename_i j' he'
      rw [he] at he'
      injection he' with hj
      subst hj
      rfl

theorem blocks_of_assemble {bs : List (List Char × List Char)} {pre : List Char}
    (hwf : wfAssemble pre bs = true) :
    vEventBlocks (assembleICS pre bs) = bs.map Prod.fst := by
  induction bs generalizing pre with
  | nil =>
    simp only [wfAssemble, Option.isNone_iff_eq_none] at hwf
    simp [assembleICS, vEventBlocks_eq_nil_of_no_begin hwf]
  | cons pb bs ih =>
    obtain ⟨body, sep⟩ := pb
    simp only [wfAssemble, Bool.and_eq_true, beq_iff_eq] at hwf
    obtain ⟨⟨hb, he0⟩, hwfr⟩ := hwf
    have hassemble : assembleICS pre ((body, sep) :: bs)
        = pre ++ (beginMark ++ (body ++ (endMark ++ assembleICS sep bs))) := by
      simp [assembleICS, List.append_assoc]
    have hdrop : (assembleICS pre ((body, sep) :: bs)).drop (pre.length + beginMark.length)
        = body ++ endMark ++ assembleICS sep bs := by
      rw [hassemble, List.drop_append, List.drop_left]
      simp [List.append_assoc]
    have he' : findSub endMark
        ((assembleICS pre ((body, sep) :: bs)).drop (pre.length + beginMark.length))
        = some body.length := by
      rw [hdrop]
      exact he0
    rw [vEventBlocks_step hb he', hdrop]
    have htake : (body ++ endMark ++ assembleICS sep bs).take body.length = body := by
      rw [List.append_assoc]
      exact List.take_left body (endMark ++ assembleICS sep bs)
    have hdrop2 : (body ++ endMark ++ assembleICS sep bs).drop (body.length + endMark.length)
        = assembleICS sep bs := by
      rw [List.append_assoc, List.drop_append, List.drop_left]
    rw [htake, hdrop2, List.map_cons]
    exact congrArg (body :: ·) (ih hwfr)

/-! ### Helper lemmas: CSV serialisation and sums -/

theorem intercalate_cons_shape (first : List Char) (rest : List (List Char)) :
    List.intercalate (['\n']) (first :: rest)
      = first ++ rest.foldr (fun r acc => '\n' :: (r ++ acc)) [] := by
  induction rest generalizing first with
  | nil => simp [List.intercalate]
  | cons r t ih =>
    have hcc : List.intercalate (['\n'] : List Char) (first :: r :: t)
        = first ++ ['\n'] ++ List.intercalate (['\n']) (r :: t) := by
      simp [List.intercalate, List.intersperse]
    rw [hcc, ih r]
    simp [List.append_assoc]

theorem exportCSV_shape (dv : List Char → Option Int) (fmt : List Char → List Char)
    (evts : List Event) (sd ed : List Char) :
    exportCSV dv fmt evts sd ed
      = csvHeaderLine ++ (exportFilter dv sd ed evts).foldr
          (fun e acc => '\n' :: (csvDataRow fmt e ++ acc)) [] := by
  have h1 : (csvHeaders :: (exportFilter dv sd ed evts).map (csvRowOf fmt)).map
      (fun r => List.intercalate ([',']) r)
      = csvHeaderLine :: (exportFilter dv sd ed evts).map (csvDataRow fmt) := by
    simp [csvHeaderLine, csvDataRow, List.map_map, Function.comp]
  show List.intercalate (['\n'])
      ((csvHeaders :: (exportFilter dv sd ed evts).map (csvRowOf fmt)).map
        (fun r => List.intercalate ([',']) r)) = _
  rw [h1, intercalate_cons_shape]
  congr 1
  rw [List.foldr_map]

theorem foldl_add_eq_sum {α : Type} (f : α → ℚ) :
    ∀ (l : List α) (init : ℚ), l.foldl (fun a x => a + f x) init = init + (l.map f).sum
  | [], init => by simp
  | x :: t, init => by
    rw [List.foldl_cons, foldl_add_eq_sum f t (init + f x), List.map_cons, List.sum_cons]
    ring

theorem escQuotes_eq_flatMap (f : List Char) :
    escQuotes f = f.flatMap (fun c => if c = '"' then ['"', '"'] else [c]) := by
  induction f with
  | nil => rfl
  | cons c r ih =>
    by_cases h : c = '"'
    · simp [escQuotes, h, ih]
    · simp [escQuotes, h, ih]

/-! ### Claim theorems -/

/-- C1: `parseICS` returns exactly one `Event` per `BEGIN:VEVENT … END:VEVENT`
block found by the non-overlapping non-greedy scan, preserving source order:
on a well-formed document assembled from `N` wrapped block bodies it returns
exactly the `N` events of those bodies, in order. -/
theorem parse_one_event_per_block (pre : List Char) (bs : List (List Char × List Char))
    (hwf : wfAssemble pre bs = true) :
    parseICS (assembleICS pre bs) = bs.map (fun pb => parseEventBlock pb.1) ∧
    (parseICS (assembleICS pre bs)).length = bs.length := by
  have h := blocks_of_assemble hwf
  constructor
  · simp [parseICS, h, List.map_map, Function.comp]
  · simp [parseICS, h]

/-- Witness for C1 at a concrete two-block document. -/
theorem parse_one_event_per_block_witness :
    wfAssemble (("CAL\n").toList)
      [((("\nSUMMARY:A\n").toList), ("\n").toList),
       ((("\nSUMMARY:B\n").toList), ("\ntail").toList)] = true ∧
    (parseICS (assembleICS (("CAL\n").toList)
      [((("\nSUMMARY:A\n").toList), ("\n").toList),
       ((("\nSUMMARY:B\n").toList), ("\ntail").toList)])).length = 2 := by
  constructor
  · decide
  · exact (parse_one_event_per_block (("CAL\n").toList)
      [((("\nSUMMARY:A\n").toList), ("\n").toList),
       ((("\nSUMMARY:B\n").toList), ("\ntail").toList)] (by decide)).2

/-- C2: a captured 8-character token normalises to `YYYY-MM-DD`; a token of
any other length normalises to `YYYY-MM-DD HH:MM` with hour and minute read
from offsets 9-11 and 11-13 (the character at offset 8 skipped); both
`DTSTART` and `DTEND` captures go through this normalisation, and the two
spec examples evaluate as stated. -/
theorem normalize_date_spec :
    (∀ (y1 y2 y3 y4 m1 m2 d1 d2 : Char),
      normalizeDate [y1, y2, y3, y4, m1, m2, d1, d2]
        = [y1, y2, y3, y4, '-', m1, m2, '-', d1, d2]) ∧
    (∀ (y1 y2 y3 y4 m1 m2 d1 d2 c : Char) (rest : List Char),
      normalizeDate ([y1, y2, y3, y4, m1, m2, d1, d2] ++ c :: rest)
        = [y1, y2, y3, y4, '-', m1, m2, '-', d1, d2, ' ']
            ++ rest.take 2 ++ ':' :: (rest.drop 2).take 2) ∧
    (∀ d : List Char, d.length ≠ 8 →
      normalizeDate d = jsSlice 0 4 d ++ '-' :: jsSlice 4 6 d ++ '-' :: jsSlice 6 8 d
        ++ ' ' :: jsSlice 9 11 d ++ ':' :: jsSlice 11 13 d) ∧
    (∀ b d, scanCap dtstartPats b = some d →
      (parseEventBlock b).start = normalizeDate d) ∧
    (∀ b d, scanCap dtendPats b = some d →
      (parseEventBlock b).«end» = normalizeDate d) ∧
    normalizeDate (("20240315").toList) = ("2024-03-15").toList ∧
    normalizeDate (("20240315T143000Z").toList) = ("2024-03-15 14:30").toList := by
  refine ⟨?_, ?_, ?_, ?_, ?_, ?_, ?_⟩
  · intro y1 y2 y3 y4 m1 m2 d1 d2
    simp [normalizeDate, jsSlice]
  · intro y1 y2 y3 y4 m1 m2 d1 d2 c rest
    have hlen : ([y1, y2, y3, y4, m1, m2, d1, d2] ++ c :: rest).length ≠ 8 := by
      simp
    unfold normalizeDate
    rw [if_neg hlen]
    simp [jsSlice]
  · intro d hlen
    unfold normalizeDate
    rw [if_neg hlen]
  · intro b d h
    simp [parseEventBlock, h]
  · intro b d h
    simp [parseEventBlock, h]
  · decide
  · decide

/-- Witness for C2 via the parser on a concrete block. -/
theorem normalize_date_spec_witness :
    (parseEventBlock (("DTSTART:20240315T143000Z\nDTEND:20240316").toList)).start
        = ("2024-03-15 14:30").toList ∧
    (parseEventBlock (("DTSTART:20240315T143000Z\nDTEND:20240316").toList)).«end»
        = ("2024-03-16").toList := by
  constructor
  · rw [normalize_date_spec.2.2.2.1 (("DTSTART:20240315T143000Z\nDTEND:20240316").toList)
      (("20240315T143000Z").toList) (by decide)]
    decide
  · rw [normalize_date_spec.2.2.2.2.1 (("DTSTART:20240315T143000Z\nDTEND:20240316").toList)
      (("20240316").toList) (by decide)]
    decide

/-- C3 (evaluation at the failing input): the paging state transitions do
clamp (`0 → 1 → 2 → 2`, and previous at `0` stays `0`), but the rendered
month key ignores the paged state entirely — the render recomputes a local
`currentMonthIndex` from today's key, shadowing the React state — so after
two `next` operations on three buckets the displayed bucket is still bucket
0 (`2024-01`), not bucket 2 (`2024-03`) as the claim requires. -/
theorem month_nav_ignores_paging_state :
    jsNext 3 (jsNext 3 0) = 2 ∧
    jsNext 3 (jsNext 3 (jsNext 3 0)) = 2 ∧
    jsPrev 0 = 0 ∧
    renderedMonthKey [("2024-01").toList, ("2024-02").toList, ("2024-03").toList]
      (("2025-06").toList) (jsNext 3 (jsNext 3 0)) = some (("2024-01").toList) ∧
    [("2024-01").toList, ("2024-02").toList, ("2024-03").toList][2]?
      = some (("2024-03").toList) ∧
    ¬ renderedMonthKey [("2024-01").toList, ("2024-02").toList, ("2024-03").toList]
      (("2025-06").toList) (jsNext 3 (jsNext 3 0)) = some (("2024-03").toList) := by
  refine ⟨by decide, by decide, by decide, by decide, by decide, by decide⟩

/-- C4: CSV export keeps exactly the events whose start valuation lies in
the inclusive range, serialises a header line followed by one data row per
kept event with each field double-quoted (quotes doubled), rows joined by
newlines; on the Team Sync example the output is the header plus exactly
one data row whose first field is `"Team Sync"`. -/
theorem export_csv_filter_and_shape :
    (∀ (dv : List Char → Option Int) (sd ed : List Char) (evts : List Event),
      exportFilter dv sd ed evts = evts.filter (fun e =>
        match dv e.start, dv sd, dv ed with
        | some v, some a, some b => decide (a ≤ v) && decide (v ≤ b)
        | _, _, _ => false)) ∧
    (∀ (dv : List Char → Option Int) (fmt : List Char → List Char)
        (evts : List Event) (sd ed : List Char),
      exportCSV dv fmt evts sd ed
        = csvHeaderLine ++ (exportFilter dv sd ed evts).foldr
            (fun e acc => '\n' :: (csvDataRow fmt e ++ acc)) []) ∧
    (∀ (fmt : List Char → List Char) (e : Event),
      csvDataRow fmt e = List.intercalate ([','])
        ([e.summary, fmt e.start, fmt e.«end», e.location.getD [], e.description.getD []].map
          (fun f => '"' :: (escQuotes f ++ ['"'])))) ∧
    (∀ fmt : List Char → List Char,
      exportCSV jsDateVal fmt
        [{ summary := ("Team Sync").toList, start := ("2024-03-10").toList,
           «end» := ("2024-03-10").toList, description := some (("Weekly").toList),
           location := some [] }]
        (("2024-03-01").toList) (("2024-03-31").toList)
      = csvHeaderLine ++ '\n' ::
          csvDataRow fmt { summary := ("Team Sync").toList, start := ("2024-03-10").toList,
                           «end» := ("2024-03-10").toList,
                           description := some (("Weekly").toList),
                           location := some [] }) ∧
    (∀ fmt : List Char → List Char,
      (csvRowOf fmt { summary := ("Team Sync").toList, start := ("2024-03-10").toList,
                      «end» := ("2024-03-10").toList,
                      description := some (("Weekly").toList),
                      location := some [] }).head? = some (("\"Team Sync\"").toList)) := by
  refine ⟨?_, ?_, ?_, ?_, ?_⟩
  · intro dv sd ed evts
    unfold exportFilter
    congr 1
    funext e
    cases h1 : dv e.start <;> cases h2 : dv sd <;> cases h3 : dv ed <;>
      simp [jsGeVal, jsLeVal]
  · intro dv fmt evts sd ed
    exact exportCSV_shape dv fmt evts sd ed
  · intro fmt e
    simp [csvDataRow, csvRowOf, csvQuote]
  · intro fmt
    rw [exportCSV_shape]
    have hf : exportFilter jsDateVal (("2024-03-01").toList) (("2024-03-31").toList)
        [{ summary := ("Team Sync").toList, start := ("2024-03-10").toList,
           «end» := ("2024-03-10").toList, description := some (("Weekly").toList),
           location := some [] }]
        = [{ summary := ("Team Sync").toList, start := ("2024-03-10").toList,
             «end» := ("2024-03-10").toList, description := some (("Weekly").toList),
             location := some [] }] := by decide
    rw [hf]
    simp
  · intro fmt
    simp [csvRowOf]
    decide

/-- C5: `parseICS` fails on no input: documents without `VEVENT` markers
parse to the empty list; a `BEGIN:VEVENT` with no following `END:VEVENT`
contributes nothing; within a block each missing field degrades to its
default while present fields are still populated (concrete block lacking
`LOCATION`). -/
theorem parse_never_fails (s b : List Char) :
    (occursIn (("VEVENT").toList) s = false → parseICS s = []) ∧
    (∀ i, findSub beginMark s = some i →
      occursIn endMark (s.drop (i + beginMark.length)) = false → parseICS s = []) ∧
    ((scanCap sumPats b = none → (parseEventBlock b).summary = []) ∧
     (scanCap dtstartPats b = none → (parseEventBlock b).start = []) ∧
     (scanCap dtendPats b = none → (parseEventBlock b).«end» = []) ∧
     (scanCap descPats b = none → (parseEventBlock b).description = none) ∧
     (scanCap locPats b = none → (parseEventBlock b).location = none)) ∧
    parseICS (("BEGIN:VEVENT\nSUMMARY:Standup\nDTSTART:20240315T090000Z\nDTEND:20240315T093000Z\nDESCRIPTION:Daily\nEND:VEVENT").toList)
      = [{ summary := ("Standup").toList, start := ("2024-03-15 09:00").toList,
           «end» := ("2024-03-15 09:30").toList, description := some (("Daily").toList),
           location := none }] := by
  refine ⟨?_, ?_, ?_, ?_⟩
  · intro h
    have hnb : occursIn beginMark s = false := by
      cases hx : occursIn beginMark s with
      | false => rfl
      | true =>
        have hv : occursIn (("VEVENT").toList) s = true := by
          have hsplit : beginMark = ("BEGIN:").toList ++ ("VEVENT").toList := by decide
          exact occursIn_append_dropPattern (hsplit ▸ hx)
        rw [hv] at h
        cases h
    simp [parseICS, vEventBlocks_eq_nil_of_no_begin (findSub_eq_none_of_not_occursIn hnb)]
  · intro i hb he
    simp [parseICS, vEventBlocks_eq_nil_of_no_end hb (findSub_eq_none_of_not_occursIn he)]
  · refine ⟨?_, ?_, ?_, ?_, ?_⟩ <;> intro h <;> simp [parseEventBlock, h]
  · have h1 : findSub beginMark
        (("BEGIN:VEVENT\nSUMMARY:Standup\nDTSTART:20240315T090000Z\nDTEND:20240315T093000Z\nDESCRIPTION:Daily\nEND:VEVENT").toList)
        = some 0 := by decide
    have h2 : findSub endMark
        ((("BEGIN:VEVENT\nSUMMARY:Standup\nDTSTART:20240315T090000Z\nDTEND:20240315T093000Z\nDESCRIPTION:Daily\nEND:VEVENT").toList).drop
          (0 + beginMark.length)) = some 83 := by decide
    have h3 := vEventBlocks_step h1 h2
    have h4 : vEventBlocks
        (((("BEGIN:VEVENT\nSUMMARY:Standup\nDTSTART:20240315T090000Z\nDTEND:20240315T093000Z\nDESCRIPTION:Daily\nEND:VEVENT").toList).drop
          (0 + beginMark.length)).drop (83 + endMark.length)) = [] :=
      vEventBlocks_eq_nil_of_no_begin (by decide)
    simp only [parseICS]
    rw [h3, h4]
    decide

/-- Witness for C5 at concrete degenerate inputs. -/
theorem parse_never_fails_witness :
    parseICS (("hello world").toList) = [] ∧
    parseICS (("BEGIN:VEVENT\nSUMMARY:orphan").toList) = [] ∧
    (parseEventBlock (("x").toList)).summary = [] := by
  refine ⟨?_, ?_, ?_⟩
  · exact (parse_never_fails (("hello world").toList) []).1 (by decide)
  · exact (parse_never_fails (("BEGIN:VEVENT\nSUMMARY:orphan").toList) []).2.1 0
      (by decide) (by decide)
  · exact ((parse_never_fails [] (("x").toList)).2.2.1).1 (by decide)

/-- C6: the per-bucket total-hours value is the sum over the bucket's
events of `(end - start)` converted to hours under the wall-clock
valuation `dv`; a non-positive duration enters the sum unchanged
(concretely, a single event whose end precedes its start by two hours
contributes exactly `-2`). -/
theorem total_hours_sum :
    (∀ (dv : List Char → ℚ) (evts : List Event),
      totalHours dv evts
        = (evts.map (fun e => (dv e.«end» - dv e.start) / (1000 * 60 * 60))).sum) ∧
    (∀ (dv : List Char → ℚ) (e : Event) (evts : List Event),
      totalHours dv (e :: evts)
        = (dv e.«end» - dv e.start) / (1000 * 60 * 60) + totalHours dv evts) ∧
    totalHours (fun s => if s = ("E").toList then 0 else 7200000)
      [{ summary := [], start := ("S").toList, «end» := ("E").toList,
         description := none, location := none }] = -2 := by
  have hmain : ∀ (dv : List Char → ℚ) (evts : List Event),
      totalHours dv evts
        = (evts.map (fun e => (dv e.«end» - dv e.start) / (1000 * 60 * 60))).sum := by
    intro dv evts
    rw [totalHours, foldl_add_eq_sum]
    ring
  refine ⟨hmain, ?_, ?_⟩
  · intro dv e evts
    rw [hmain, hmain, List.map_cons, List.sum_cons]
  · rw [hmain]
    simp only [List.map_cons, List.map_nil, List.sum_cons, List.sum_nil]
    rw [if_pos trivial, if_neg (by decide)]
    norm_num

/-- C7: a successful import replaces the displayed event collection
wholesale with the parse of the fetched text (independently of the previous
collection); a failed import leaves the collection unchanged; the file
upload handler behaves identically. -/
theorem import_replaces_or_preserves :
    (∀ (st : UIState) (content : List Char),
      (handleUrlImport st (Except.ok content)).events = parseICS content) ∧
    (∀ (st st' : UIState) (content : List Char),
      (handleUrlImport st (Except.ok content)).events
        = (handleUrlImport st' (Except.ok content)).events) ∧
    (∀ (st : UIState) (msg : List Char),
      (handleUrlImport st (Except.error msg)).events = st.events) ∧
    (∀ (st : UIState) (content : List Char),
      (handleFileUpload st (Except.ok content)).events = parseICS content) ∧
    (∀ (st : UIState) (msg : List Char),
      (handleFileUpload st (Except.error msg)).events = st.events) :=
  ⟨fun _ _ => rfl, fun _ _ _ => rfl, fun _ _ => rfl, fun _ _ => rfl, fun _ _ => rfl⟩

/-- C8: on a document made of physical lines, each of the five fields is
captured from the first line matching its pattern (block-wide leftmost
search coincides with line-by-line first match), and on a clean line the
capture is exactly the remainder of the line after the pattern — so a
multi-line value is truncated to its first physical line. -/
theorem fields_from_first_matching_line (ls : List (List Char))
    (hls : ∀ l ∈ ls, l.all notLineTerm = true) :
    ((parseEventBlock (joinLines ls)).summary
        = (ls.findSome? (fun l => scanCap sumPats l)).getD []) ∧
    ((parseEventBlock (joinLines ls)).start
        = match ls.findSome? (fun l => scanCap dtstartPats l) with
          | some d => normalizeDate d
          | none => []) ∧
    ((parseEventBlock (joinLines ls)).«end»
        = match ls.findSome? (fun l => scanCap dtendPats l) with
          | some d => normalizeDate d
          | none => []) ∧
    ((parseEventBlock (joinLines ls)).description
        = ls.findSome? (fun l => scanCap descPats l)) ∧
    ((parseEventBlock (joinLines ls)).location
        = ls.findSome? (fun l => scanCap locPats l)) ∧
    (∀ (p l : List Char), p ≠ [] → l.all notLineTerm = true →
      scanCap [p] l = (findSub p l).map (fun i => l.drop (i + p.length))) := by
  refine ⟨?_, ?_, ?_, ?_, ?_, ?_⟩
  · show (scanCap sumPats (joinLines ls)).getD [] = _
    rw [scanCap_joinLines (by decide) (by decide) hls]
  · show (match scanCap dtstartPats (joinLines ls) with
      | some d => normalizeDate d
      | none => []) = _
    rw [scanCap_joinLines (by decide) (by decide) hls]
  · show (match scanCap dtendPats (joinLines ls) with
      | some d => normalizeDate d
      | none => []) = _
    rw [scanCap_joinLines (by decide) (by decide) hls]
  · show scanCap descPats (joinLines ls) = _
    rw [scanCap_joinLines (by decide) (by decide) hls]
  · show scanCap locPats (joinLines ls) = _
    rw [scanCap_joinLines (by decide) (by decide) hls]
  · exact fun p l hp hl => scanCap_clean_eq_findSub hp hl

/-- Witness for C8: with two `SUMMARY` lines the first one wins. -/
theorem fields_from_first_matching_line_witness :
    (parseEventBlock (joinLines
      [("SUMMARY:first").toList, ("SUMMARY:second").toList])).summary
      = ("first").toList := by
  rw [(fields_from_first_matching_line
    [("SUMMARY:first").toList, ("SUMMARY:second").toList] (by decide)).1]
  decide

/-- C9: a `DTSTART` (respectively `DTEND`) line carrying any parameter
other than exactly `;VALUE=DATE` defeats both literal alternatives of the
start (respectively end) pattern, so the event's `start` (respectively
`end`) stays the empty string even though a date token is present in the
block. -/
theorem dt_param_no_match (b b' : List Char)
    (h1 : occursIn (("DTSTART:").toList) b = false)
    (h2 : occursIn (("DTSTART;VALUE=DATE:").toList) b = false)
    (h3 : occursIn (("DTEND:").toList) b' = false)
    (h4 : occursIn (("DTEND;VALUE=DATE:").toList) b' = false) :
    (parseEventBlock b).start = [] ∧ (parseEventBlock b').«end» = [] := by
  constructor
  · have hnone : scanCap dtstartPats b = none := by
      apply scanCap_eq_none_of_not_occursIn
      intro p hp
      simp only [dtstartPats, List.mem_cons, List.not_mem_nil, or_false] at hp
      cases hp with
      | inl hp => rw [hp]; exact h2
      | inr hp => rw [hp]; exact h1
    simp [parseEventBlock, hnone]
  · have hnone : scanCap dtendPats b' = none := by
      apply scanCap_eq_none_of_not_occursIn
      intro p hp
      simp only [dtendPats, List.mem_cons, List.not_mem_nil, or_false] at hp
      cases hp with
      | inl hp => rw [hp]; exact h4
      | inr hp => rw [hp]; exact h3
    simp [parseEventBlock, hnone]

/-- Witness for C9 on a block whose `DTSTART` and `DTEND` lines both carry
a `TZID` parameter: both fields stay empty although both date tokens are
present. -/
theorem dt_param_no_match_witness :
    (parseEventBlock
      (("SUMMARY:Meeting\nDTSTART;TZID=Europe/Zurich:20240315T090000\nDTEND;TZID=Europe/Zurich:20240315T100000").toList)).start = [] ∧
    (parseEventBlock
      (("SUMMARY:Meeting\nDTSTART;TZID=Europe/Zurich:20240315T090000\nDTEND;TZID=Europe/Zurich:20240315T100000").toList)).«end» = [] ∧
    occursIn (("20240315T090000").toList)
      (("SUMMARY:Meeting\nDTSTART;TZID=Europe/Zurich:20240315T090000\nDTEND;TZID=Europe/Zurich:20240315T100000").toList) = true ∧
    occursIn (("20240315T100000").toList)
      (("SUMMARY:Meeting\nDTSTART;TZID=Europe/Zurich:20240315T090000\nDTEND;TZID=Europe/Zurich:20240315T100000").toList) = true := by
  have h := dt_param_no_match
    (("SUMMARY:Meeting\nDTSTART;TZID=Europe/Zurich:20240315T090000\nDTEND;TZID=Europe/Zurich:20240315T100000").toList)
    (("SUMMARY:Meeting\nDTSTART;TZID=Europe/Zurich:20240315T090000\nDTEND;TZID=Europe/Zurich:20240315T100000").toList)
    (by decide) (by decide) (by decide) (by decide)
  exact ⟨h.1, h.2, by decide, by decide⟩

/-- C10: the header row is emitted without quotes (it holds no quote
character at all), while every field of every data row is wrapped in
double quotes with inner quotes doubled; the full output is the unquoted
header line followed by the newline-joined quoted rows. -/
theorem csv_header_unquoted_rows_quoted :
    csvHeaderLine = ("Summary,Start Date,End Date,Location,Description").toList ∧
    csvHeaderLine.all (fun c => !(c == '"')) = true ∧
    (∀ (fmt : List Char → List Char) (e : Event),
      csvRowOf fmt e
        = [e.summary, fmt e.start, fmt e.«end», e.location.getD [], e.description.getD []].map
            (fun f => '"' :: (escQuotes f ++ ['"']))) ∧
    (∀ f : List Char,
      escQuotes f = f.flatMap (fun c => if c = '"' then ['"', '"'] else [c])) ∧
    (∀ (fmt : List Char → List Char) (e : Event),
      ∀ f ∈ csvRowOf fmt e, f.head? = some '"' ∧ f.getLast? = some '"') ∧
    (∀ (dv : List Char → Option Int) (fmt : List Char → List Char)
        (evts : List Event) (sd ed : List Char),
      exportCSV dv fmt evts sd ed
        = csvHeaderLine ++ ((exportFilter dv sd ed evts).map (csvDataRow fmt)).foldr
            (fun r acc => '\n' :: (r ++ acc)) []) := by
  refine ⟨by decide, by decide, ?_, escQuotes_eq_flatMap, ?_, ?_⟩
  · intro fmt e
    simp [csvRowOf, csvQuote]
  · intro fmt e f hf
    simp only [csvRowOf, List.mem_map] at hf
    obtain ⟨g, hg, rfl⟩ := hf
    constructor
    · rfl
    · show ('"' :: (escQuotes g ++ ['"'])).getLast? = some '"'
      rw [show ('"' :: (escQuotes g ++ ['"'])) = ('"' :: escQuotes g) ++ ['"'] from rfl]
      exact List.getLast?_concat ('"' :: escQuotes g)
  · intro dv fmt evts sd ed
    rw [exportCSV_shape, List.foldr_map]

end CalendarTool
